import Mathlib

/-!
Verification of the texture-synthesis core of the Texture-PBR-Pack-Generator
repository. The pipeline (src/components/Preview3D.tsx, generator half) is
shallowly embedded: an `ImageData` is a width, a height and a flat RGBA byte
list; every store into a `Uint8ClampedArray` goes through `u8q` (clamp to
[0,255], round to nearest, ties to even, exactly ECMAScript's ToUint8Clamp);
JavaScript number arithmetic on the small integer pixel values is modelled
exactly by rational arithmetic. The normal and ambient-occlusion synthesizers
use `Math.sqrt`/`Math.pow` and are embedded over the reals.
-/

namespace TexGen

/-- Model of a DOM `ImageData`: RGBA8 pixels as a flat list, row-major,
four naturals per pixel. -/
structure ImageData where
  width : ℕ
  height : ℕ
  data : List ℕ
  deriving Repr, DecidableEq

/-- ECMAScript ToUint8Clamp: clamp a number to [0,255] and round to the
nearest integer, ties to even. This is what every store into a
`Uint8ClampedArray` (the `data` of an `ImageData`) performs. -/
def u8q (x : ℚ) : ℕ :=
  if x ≤ 0 then 0
  else if 255 ≤ x then 255
  else
    let f : ℤ := ⌊x⌋
    if (f : ℚ) + 1/2 < x then (f + 1).toNat
    else if x < (f : ℚ) + 1/2 then f.toNat
    else if 2 ∣ f then f.toNat else (f + 1).toNat

/-- A `for (let i = 0; i < d.length; i += 4)` loop that overwrites every
RGBA quad of the output from the corresponding input quad: the common shape
of `toGrayscale`, `generateHeight`, `generateDisplacement`,
`generateRoughness`, `generateMetallic` and `generateAO`. -/
def mapQuads (f : ℕ → ℕ → ℕ → ℕ → List ℕ) : List ℕ → List ℕ
  | r :: g :: b :: a :: rest => f r g b a ++ mapQuads f rest
  | _ => []

/-- `toGrayscale` from the source: BT.601 luma from R,G,B, replicated into
R,G,B, alpha forced to 255. -/
def toGrayscale (imgData : ImageData) : ImageData :=
  { width := imgData.width, height := imgData.height,
    data := mapQuads (fun r g b _ =>
      let avg : ℚ := 299/1000 * r + 587/1000 * g + 114/1000 * b
      [u8q avg, u8q avg, u8q avg, 255]) imgData.data }

/-- `minV` (resp. `maxV`) of `generateHeight`: `(minP / 100) * 255`. -/
def heightMinV (p : ℚ) : ℚ := p / 100 * 255

/-- The `range = maxV - minV || 1` guard of `generateHeight`: a zero range
is replaced by 1 (JavaScript `||` on the falsy value 0). -/
def heightRange (minP maxP : ℚ) : ℚ :=
  let range := heightMinV maxP - heightMinV minP
  if range = 0 then 1 else range

/-- `generateHeight` from the source: clamp the red channel to
`[minV, maxV]` and rescale linearly to `[0,255]`. -/
def generateHeight (grayData : ImageData) (minP maxP : ℚ) : ImageData :=
  let minV := heightMinV minP
  let maxV := heightMinV maxP
  let range := heightRange minP maxP
  { width := grayData.width, height := grayData.height,
    data := mapQuads (fun r _ _ _ =>
      let val : ℚ := max minV (min maxV (r : ℚ))
      let v : ℚ := (val - minV) / range * 255
      [u8q v, u8q v, u8q v, 255]) grayData.data }

/-- `generateDisplacement` from the source:
`v = clamp((v - 128) * strength + 128, 0, 255)` on the red channel,
replicated, alpha 255. -/
def generateDisplacement (heightData : ImageData) (strength : ℚ) : ImageData :=
  { width := heightData.width, height := heightData.height,
    data := mapQuads (fun r _ _ _ =>
      let v : ℚ := ((r : ℚ) - 128) * strength + 128
      let v : ℚ := max 0 (min 255 v)
      [u8q v, u8q v, u8q v, 255]) heightData.data }

/-- `generateRoughness` from the source: `v = 255 - r` shifted by
`offset * 1.5`, clamped to `[0,255]`. -/
def generateRoughness (heightData : ImageData) (offset : ℚ) : ImageData :=
  let shift : ℚ := offset * (3/2)
  { width := heightData.width, height := heightData.height,
    data := mapQuads (fun r _ _ _ =>
      let v : ℚ := (255 - (r : ℚ)) + shift
      let v : ℚ := max 0 (min 255 v)
      [u8q v, u8q v, u8q v, 255]) heightData.data }

/-- `generateMetallic` from the source: a fresh `w×h` buffer with every
pixel set to `Math.floor(value * 255)`, alpha 255. -/
def generateMetallic (w h : ℕ) (value : ℚ) : ImageData :=
  let grayVal : ℤ := ⌊value * 255⌋
  { width := w, height := h,
    data := mapQuads (fun _ _ _ _ =>
      [u8q (grayVal : ℚ), u8q (grayVal : ℚ), u8q (grayVal : ℚ), 255])
      (List.replicate (w * h * 4) 0) }

/-- A height buffer as the pipeline produces it: every RGBA quad has
G = B = R, R ≤ 255 and alpha = 255, and the length is a multiple of 4. -/
def isGrayQuads : List ℕ → Bool
  | r :: g :: b :: a :: rest =>
      g = r && b = r && a = 255 && r ≤ 255 && isGrayQuads rest
  | [] => true
  | _ => false

/-- Base index of pixel `(x,y)` in the flat RGBA list: `(y * w + x) * 4`. -/
def pidx (w x y : ℕ) : ℕ := (y * w + x) * 4

/-- The bounds-checked single-pixel write `setP` of `applyDataBorder`:
a coordinate outside `[0,w) × [0,h)` is ignored, otherwise the four
channels of the pixel are overwritten with the constants (each store
clamps to 255, as a `Uint8ClampedArray` store does). Coordinates are
integers because the bottom/right passes compute `h - 1 - y` and
`w - 1 - x`, which go negative for oversized thicknesses. -/
def setP (w h red green blue alpha : ℕ) (d : List ℕ) (x y : ℤ) : List ℕ :=
  if x < 0 ∨ (w : ℤ) ≤ x ∨ y < 0 ∨ (h : ℤ) ≤ y then d
  else
    let i := pidx w x.toNat y.toNat
    (((d.set i (min red 255)).set (i + 1) (min green 255)).set
      (i + 2) (min blue 255)).set (i + 3) (min alpha 255)

/-- `for (let i = 0; i < n; i++) body` over a list state: applies
`f 0`, then `f 1`, …, then `f (n-1)`. -/
def forRange (n : ℕ) (f : ℕ → List ℕ → List ℕ) (d : List ℕ) : List ℕ :=
  match n with
  | 0 => d
  | k + 1 => f k (forRange k f d)

/-- `applyDataBorder` from the source: the early return when all four
thicknesses are zero, then the top, bottom, left and right write passes in
source order. The per-side `if (t > 0)` guards of the source are subsumed
by the empty iteration `forRange 0`. -/
def applyDataBorder (imageData : ImageData) (t r b l : ℕ)
    (red green blue : ℕ) (alpha : ℕ := 255) : ImageData :=
  if t = 0 ∧ r = 0 ∧ b = 0 ∧ l = 0 then imageData
  else
    let w := imageData.width
    let h := imageData.height
    let d0 := imageData.data
    let d1 := forRange t (fun y d => forRange w (fun x d =>
      setP w h red green blue alpha d (x : ℤ) (y : ℤ)) d) d0
    let d2 := forRange b (fun y d => forRange w (fun x d =>
      setP w h red green blue alpha d (x : ℤ) ((h : ℤ) - 1 - y)) d) d1
    let d3 := forRange l (fun x d => forRange h (fun y d =>
      setP w h red green blue alpha d (x : ℤ) (y : ℤ)) d) d2
    let d4 := forRange r (fun x d => forRange h (fun y d =>
      setP w h red green blue alpha d ((w : ℤ) - 1 - x) (y : ℤ)) d) d3
    { imageData with data := d4 }

/-- The constant a border write stores at channel `k` of a pixel. -/
def cval (red green blue alpha k : ℕ) : ℕ :=
  [min red 255, min green 255, min blue 255, min alpha 255].getD k 0

/-- Pixel `(x,y)` lies in the border band of thicknesses `t` (top),
`r` (right), `b` (bottom), `l` (left) on a `w×h` image. -/
def InBand (w h t r b l x y : ℕ) : Prop :=
  y < t ∨ h - b ≤ y ∨ x < l ∨ w - r ≤ x

instance (w h t r b l x y : ℕ) : Decidable (InBand w h t r b l x y) := by
  unfold InBand
  infer_instance

/-- The single pixel a `setP` call at integer coordinates `(xi,yi)`
writes: none if out of bounds. -/
def PixAt (w h : ℕ) (xi yi : ℤ) (x y : ℕ) : Prop :=
  0 ≤ xi ∧ xi < (w : ℤ) ∧ 0 ≤ yi ∧ yi < (h : ℤ) ∧
    x = xi.toNat ∧ y = yi.toNat

/-- Invariant threaded through a sequence of identical border writes:
pixels in `S` hold the border constant, all other pixels are unchanged
from `d0`, and the length is unchanged. -/
def Covered (w h red green blue alpha : ℕ) (S : ℕ → ℕ → Prop)
    (d0 d : List ℕ) : Prop :=
  d.length = d0.length ∧
  ∀ x y k : ℕ, x < w → y < h → k < 4 →
    (S x y → d.getD (pidx w x y + k) 0 = cval red green blue alpha k) ∧
    (¬ S x y → d.getD (pidx w x y + k) 0 = d0.getD (pidx w x y + k) 0)

/-- Concatenation `f 0 ++ f 1 ++ … ++ f (n-1)`: the buffer layout produced
by a loop writing consecutive chunks. -/
def catRange (n : ℕ) (f : ℕ → List ℕ) : List ℕ :=
  match n with
  | 0 => []
  | k + 1 => catRange k f ++ f k

/-- ECMAScript ToUint8Clamp over the reals, for the stages whose arithmetic
uses `Math.sqrt`/`Math.pow` (normal and ambient-occlusion synthesis). -/
noncomputable def u8r (x : ℝ) : ℕ :=
  if x ≤ 0 then 0
  else if 255 ≤ x then 255
  else
    let f : ℤ := ⌊x⌋
    if (f : ℝ) + 1/2 < x then (f + 1).toNat
    else if x < (f : ℝ) + 1/2 then f.toNat
    else if 2 ∣ f then f.toNat else (f + 1).toNat

/-- One pixel of `generateNormal`: Sobel-style gradient of the red channel
over the edge-clamped 8-neighborhood, `dZ = 255 / max(0.1, strength)`,
normalized and encoded to `[0,255]`; the GL convention (`isDX = false`)
flips the encoded Y before scaling. `Math.max(0, x - 1)` is truncated
natural subtraction. -/
noncomputable def normalQuad (src : List ℕ) (w h : ℕ) (strength : ℚ)
    (isDX : Bool) (x y : ℕ) : List ℕ :=
  let x1 := x - 1
  let x2 := min (w - 1) (x + 1)
  let y1 := y - 1
  let y2 := min (h - 1) (y + 1)
  let tr := src.getD (pidx w x2 y1) 0
  let tl := src.getD (pidx w x1 y1) 0
  let l := src.getD (pidx w x1 y) 0
  let r := src.getD (pidx w x2 y) 0
  let bl := src.getD (pidx w x1 y2) 0
  let br := src.getD (pidx w x2 y2) 0
  let t := src.getD (pidx w x y1) 0
  let b := src.getD (pidx w x y2) 0
  let dX : ℤ := ((tr : ℤ) + 2 * (r : ℤ) + (br : ℤ)) -
    ((tl : ℤ) + 2 * (l : ℤ) + (bl : ℤ))
  let dY : ℤ := ((bl : ℤ) + 2 * (b : ℤ) + (br : ℤ)) -
    ((tl : ℤ) + 2 * (t : ℤ) + (tr : ℤ))
  let dZ : ℝ := 255 / max 0.1 (strength : ℝ)
  let len : ℝ := Real.sqrt ((dX : ℝ) * (dX : ℝ) + (dY : ℝ) * (dY : ℝ) + dZ * dZ)
  let nx : ℝ := ((dX : ℝ) / len) * 0.5 + 0.5
  let ny0 : ℝ := ((dY : ℝ) / len) * 0.5 + 0.5
  let nz : ℝ := (dZ / len) * 0.5 + 0.5
  let ny : ℝ := if isDX then ny0 else 1 - ny0
  [u8r (nx * 255), u8r (ny * 255), u8r (nz * 255), 255]

/-- `generateNormal` from the source: a fresh `w×h` buffer whose pixel
`(x,y)` is `normalQuad` of the height buffer, written in row-major order. -/
noncomputable def generateNormal (heightData : ImageData) (w h : ℕ)
    (strength : ℚ) (isDX : Bool) : ImageData :=
  { width := w, height := h,
    data := catRange h (fun y => catRange w (fun x =>
      normalQuad heightData.data w h strength isDX x y)) }

/-- `generateAO` from the source: gamma curve
`v = clamp(255 * (height/255)^strength, 0, 255)`, skipped entirely when
`strength === 1.0`. -/
noncomputable def generateAO (heightData : ImageData) (w h : ℕ)
    (strength : ℚ) : ImageData :=
  { width := w, height := h,
    data := mapQuads (fun r _ _ _ =>
      let v : ℝ := if strength = 1 then (r : ℝ)
        else ((r : ℝ) / 255) ^ (strength : ℝ) * 255
      let v : ℝ := max 0 (min 255 v)
      [u8r v, u8r v, u8r v, 255]) heightData.data }

/-- Output resolutions (`types.ts`). -/
inductive Resolution
  | SQUARE_2K
  | WIDE_2K
  deriving DecidableEq

/-- Normal-map conventions (`types.ts`). -/
inductive NormalMode
  | DX
  | GL
  deriving DecidableEq

/-- Border settings (`types.ts`); `color` is the CSS color of the visual
albedo border, irrelevant to the data maps; `linked` is UI-only. -/
structure BorderSettings where
  top : ℕ
  bottom : ℕ
  left : ℕ
  right : ℕ
  linked : Bool
  color : String

/-- The parameter block of one synthesis call (`types.ts`). -/
structure PBRParams where
  resolution : Resolution
  normalStrength : ℚ
  normalMode : NormalMode
  displacementStrength : ℚ
  heightMin : ℚ
  heightMax : ℚ
  roughness : ℚ
  metallic : ℚ
  aoStrength : ℚ
  borders : BorderSettings

/-- Target width: `SQUARE_2K ? [2048,2048] : [2048,1080]`. -/
def resWidth : Resolution → ℕ
  | Resolution.SQUARE_2K => 2048
  | Resolution.WIDE_2K => 2048

/-- Target height of the chosen resolution. -/
def resHeight : Resolution → ℕ
  | Resolution.SQUARE_2K => 2048
  | Resolution.WIDE_2K => 1080

/-- A value returned by `canvas.toDataURL`: the mime type, the quality and
the encoded raster, or the bare empty string fallback. -/
inductive EncodedURL
  | url (mime : String) (quality : ℚ) (image : ImageData)
  | empty

/-- The mime type of an encoded map (the empty string for the fallback). -/
def EncodedURL.mime : EncodedURL → String
  | EncodedURL.url m _ _ => m
  | EncodedURL.empty => ""

/-- The quality parameter of an encoded map (0 for the fallback). -/
def EncodedURL.quality : EncodedURL → ℚ
  | EncodedURL.url _ q _ => q
  | EncodedURL.empty => 0

/-- `imageDataToDataURL` from the source: one and the same
`toDataURL('image/jpeg', 0.95)` serialization for every map; when no 2d
context can be created (`ctxOk = false`) the function silently returns the
empty string. Context availability is a DOM condition, modelled as the
`ctxOk` parameter. -/
def imageDataToDataURL (ctxOk : Bool) (imageData : ImageData) : EncodedURL :=
  if ctxOk then EncodedURL.url "image/jpeg" (95/100) imageData
  else EncodedURL.empty

/-- The seven-entry result record (`types.ts`). -/
structure TextureSet where
  albedo : EncodedURL
  normal : EncodedURL
  roughness : EncodedURL
  metallic : EncodedURL
  height : EncodedURL
  displacement : EncodedURL
  ao : EncodedURL

/-- The seven raster maps of one synthesis call, before encoding (steps
5–6 of `generateTextures`). Steps 1–4 (`drawCover`, `applyVisualBorder`,
`getImageData`) are DOM canvas drawing with no numeric specification; they
are abstracted as the already-composited `albedoData` input raster. -/
structure SynthMaps where
  albedo : ImageData
  normal : ImageData
  roughness : ImageData
  metallic : ImageData
  height : ImageData
  displacement : ImageData
  ao : ImageData

/-- The pixel pipeline of `generateTextures`, in source order: grayscale,
data border, height, data border, normal, displacement plus border,
roughness plus white border, metallic plus border, ambient occlusion. -/
noncomputable def pipelineMaps (albedoData : ImageData)
    (params : PBRParams) : SynthMaps :=
  let width := resWidth params.resolution
  let height := resHeight params.resolution
  let bt := params.borders.top
  let br := params.borders.right
  let bb := params.borders.bottom
  let bl := params.borders.left
  let grayData := toGrayscale albedoData
  let grayData := applyDataBorder grayData bt br bb bl 0 0 0
  let heightData := generateHeight grayData params.heightMin params.heightMax
  let heightData := applyDataBorder heightData bt br bb bl 0 0 0
  let normalData := generateNormal heightData width height
    params.normalStrength (decide (params.normalMode = NormalMode.DX))
  let dispData := generateDisplacement heightData params.displacementStrength
  let dispData := applyDataBorder dispData bt br bb bl 0 0 0
  let roughnessData := generateRoughness heightData params.roughness
  let roughnessData := applyDataBorder roughnessData bt br bb bl 255 255 255
  let metallicData := generateMetallic width height params.metallic
  let metallicData := applyDataBorder metallicData bt br bb bl 0 0 0
  let aoData := generateAO heightData width height params.aoStrength
  { albedo := albedoData, normal := normalData, roughness := roughnessData,
    metallic := metallicData, height := heightData, displacement := dispData,
    ao := aoData }

/-- `generateTextures` from the source. The initial canvas context
creation throws `"Failed to create canvas context"` when unavailable
(`mainCtxOk = false`); the per-map encoding context availability is
`encCtxOk`. The source performs no parameter validation of any kind. -/
noncomputable def generateTextures (albedoData : ImageData)
    (params : PBRParams) (mainCtxOk encCtxOk : Bool) :
    Except String TextureSet :=
  if mainCtxOk then
    let m := pipelineMaps albedoData params
    Except.ok {
      albedo := imageDataToDataURL encCtxOk m.albedo,
      normal := imageDataToDataURL encCtxOk m.normal,
      roughness := imageDataToDataURL encCtxOk m.roughness,
      metallic := imageDataToDataURL encCtxOk m.metallic,
      height := imageDataToDataURL encCtxOk m.height,
      displacement := imageDataToDataURL encCtxOk m.displacement,
      ao := imageDataToDataURL encCtxOk m.ao }
  else Except.error "Failed to create canvas context"

/-- Whether a synthesis call returned a `TextureSet` rather than throwing. -/
def exceptIsOk : Except String TextureSet → Bool
  | Except.ok _ => true
  | Except.error _ => false

/-- The documented parameter ranges of spec §3 (border thicknesses are
stated separately where needed). -/
def ValidInterior (p : PBRParams) : Prop :=
  1/2 ≤ p.normalStrength ∧ p.normalStrength ≤ 6 ∧
  0 ≤ p.displacementStrength ∧ p.displacementStrength ≤ 5 ∧
  0 ≤ p.heightMin ∧ p.heightMax ≤ 100 ∧ p.heightMin < p.heightMax ∧
  -100 ≤ p.roughness ∧ p.roughness ≤ 100 ∧
  0 ≤ p.metallic ∧ p.metallic ≤ 1 ∧
  0 ≤ p.aoStrength ∧ p.aoStrength ≤ 2

end TexGen

namespace TexGen

/-- `List.getD` distributes over `cons` at a successor index. -/
theorem getD_cons_succ_nat (a : ℕ) (l : List ℕ) (n : ℕ) :
    (a :: l).getD (n + 1) 0 = l.getD n 0 := rfl

/-- Reading a position inside the left part of an append. -/
theorem getD_append_left (l l' : List ℕ) : ∀ i : ℕ, i < l.length →
    (l ++ l').getD i 0 = l.getD i 0 := by
  induction l with
  | nil => intro i h; simp at h
  | cons a t ih =>
    intro i h
    cases i with
    | zero => rfl
    | succ j => simpa using ih j (by simpa using h)

/-- Reading a position inside the right part of an append. -/
theorem getD_append_right (l l' : List ℕ) : ∀ j : ℕ,
    (l ++ l').getD (l.length + j) 0 = l'.getD j 0 := by
  induction l with
  | nil => intro j; simp
  | cons a t ih =>
    intro j
    have : (a :: t).length + j = (t.length + j) + 1 := by simp; omega
    rw [this]
    simpa using ih j

/-- Length of a `mapQuads` output when every produced quad has length 4:
the input is consumed four bytes at a time. -/
theorem mapQuads_length (f : ℕ → ℕ → ℕ → ℕ → List ℕ)
    (hf : ∀ r g b a, (f r g b a).length = 4) : ∀ d : List ℕ,
    (mapQuads f d).length = 4 * (d.length / 4)
  | r :: g :: b :: a :: rest => by
    simp only [mapQuads, List.length_append, hf,
      mapQuads_length f hf rest, List.length_cons]
    omega
  | [] => by simp [mapQuads]
  | [a] => by simp [mapQuads]
  | [a, b] => by simp [mapQuads]
  | [a, b, c] => by simp [mapQuads]

/-- The `p`-th output quad of `mapQuads` is `f` applied to the `p`-th input
quad. -/
theorem mapQuads_getD (f : ℕ → ℕ → ℕ → ℕ → List ℕ)
    (hf : ∀ r g b a, (f r g b a).length = 4) : ∀ (p : ℕ) (d : List ℕ),
    4 * p + 3 < d.length → ∀ k : ℕ, k < 4 →
    (mapQuads f d).getD (4 * p + k) 0 =
      (f (d.getD (4 * p) 0) (d.getD (4 * p + 1) 0) (d.getD (4 * p + 2) 0)
        (d.getD (4 * p + 3) 0)).getD k 0 := by
  intro p
  induction p with
  | zero =>
    intro d hd k hk
    match d, hd with
    | r :: g :: b :: a :: rest, _ =>
      show (f r g b a ++ mapQuads f rest).getD (4 * 0 + k) 0 = _
      have hlen : 4 * 0 + k < (f r g b a).length := by rw [hf]; omega
      rw [getD_append_left _ _ _ hlen]
      norm_num
  | succ q ih =>
    intro d hd k hk
    match d, hd with
    | r :: g :: b :: a :: rest, hd =>
      show (f r g b a ++ mapQuads f rest).getD (4 * (q + 1) + k) 0 = _
      have hidx : 4 * (q + 1) + k = (f r g b a).length + (4 * q + k) := by
        rw [hf]; omega
      rw [hidx, getD_append_right]
      have hrest : 4 * q + 3 < rest.length := by
        simp only [List.length_cons] at hd; omega
      rw [ih rest hrest k hk]
      have e1 : 4 * (q + 1) = (4 * q + 3) + 1 := by omega
      have e2 : 4 * (q + 1) + 1 = (4 * q + 3) + 2 := by omega
      have e3 : 4 * (q + 1) + 2 = (4 * q + 3) + 3 := by omega
      have e4 : 4 * (q + 1) + 3 = (4 * q + 3) + 4 := by omega
      simp [e1, e2, e3, e4, List.getD_cons_succ]

/-- `u8q` of an integer already in `[0,255]` is that integer: clamping and
rounding are the identity there. -/
theorem u8q_intCast (i : ℤ) (h0 : 0 ≤ i) (h255 : i ≤ 255) :
    u8q (i : ℚ) = i.toNat := by
  unfold u8q
  rcases eq_or_lt_of_le h0 with h | hpos
  · simp [← h]
  · rw [if_neg (by exact_mod_cast not_le_of_lt hpos)]
    rcases eq_or_lt_of_le h255 with h | hlt
    · rw [if_pos (by exact_mod_cast le_of_eq h.symm)]
      omega
    · rw [if_neg (by exact_mod_cast not_le_of_lt hlt)]
      have hfl : ⌊(i : ℚ)⌋ = i := Int.floor_intCast i
      simp only [hfl]
      have hi1 : ¬ ((i : ℚ) + 1/2 < (i : ℚ)) := by linarith
      have hi2 : (i : ℚ) < (i : ℚ) + 1/2 := by linarith
      rw [if_neg hi1, if_pos hi2]

/-- `u8q` of a natural number at most 255 is that natural number. -/
theorem u8q_natCast (n : ℕ) (hn : n ≤ 255) : u8q (n : ℚ) = n := by
  have : ((n : ℤ) : ℚ) = (n : ℚ) := by push_cast; ring
  rw [← this, u8q_intCast (n : ℤ) (by positivity) (by exact_mod_cast hn)]
  simp

/-- A `mapQuads` whose quad function is the identity on grayscale opaque
quads reproduces its input list. -/
theorem mapQuads_gray_id (f : ℕ → ℕ → ℕ → ℕ → List ℕ)
    (hf : ∀ r : ℕ, r ≤ 255 → f r r r 255 = [r, r, r, 255]) :
    ∀ d : List ℕ, isGrayQuads d = true → mapQuads f d = d
  | r :: g :: b :: a :: rest => by
    intro h
    simp only [isGrayQuads, Bool.and_eq_true, decide_eq_true_eq] at h
    obtain ⟨⟨⟨⟨hgr, hbr⟩, ha⟩, hr⟩, hrest⟩ := h
    show f r g b a ++ mapQuads f rest = r :: g :: b :: a :: rest
    rw [hgr, hbr, ha, hf r hr, mapQuads_gray_id f hf rest hrest]
    rfl
  | [] => by intro _; rfl
  | [a] => by intro h; simp [isGrayQuads] at h
  | [a, b] => by intro h; simp [isGrayQuads] at h
  | [a, b, c] => by intro h; simp [isGrayQuads] at h

/-- C5: with `heightMin = heightMax` the height mapper does not divide by
zero: the zero range is replaced by 1 (`range = maxV - minV || 1`) and the
output buffer is fully defined — same length as the input, every pixel the
quad `(0,0,0,255)`. -/
theorem claim_C5_degenerate_height_range (grayData : ImageData) (minP : ℚ)
    (hlen : 4 ∣ grayData.data.length) :
    heightRange minP minP = 1 ∧
    (generateHeight grayData minP minP).data.length = grayData.data.length ∧
    ∀ p k : ℕ, 4 * p + 3 < grayData.data.length → k < 4 →
      (generateHeight grayData minP minP).data.getD (4 * p + k) 0 =
        [0, 0, 0, 255].getD k 0 := by
  refine ⟨by simp [heightRange], ?_, ?_⟩
  · simp only [generateHeight]
    rw [mapQuads_length _ (by intro r g b a; rfl)]
    omega
  · intro p k hp hk
    simp only [generateHeight]
    rw [mapQuads_getD _ (by intro r g b a; rfl) p _ hp k hk]
    have hmax : max (heightMinV minP)
        (min (heightMinV minP) ((grayData.data.getD (4 * p) 0 : ℕ) : ℚ)) =
        heightMinV minP := max_eq_left (min_le_left _ _)
    rw [hmax]
    have hv : (heightMinV minP - heightMinV minP) / heightRange minP minP * 255
        = 0 := by simp
    rw [hv]
    have hz : u8q 0 = 0 := by simp [u8q]
    rw [hz]

/-- C5 witness: a concrete 1×1 gray-100 buffer with `minP = maxP = 50`. -/
theorem claim_C5_degenerate_height_range_witness :
    heightRange 50 50 = 1 ∧
    (generateHeight ⟨1, 1, [100, 100, 100, 255]⟩ 50 50).data.getD 0 0 = 0 := by
  constructor
  · exact (claim_C5_degenerate_height_range ⟨1, 1, [100, 100, 100, 255]⟩ 50
      (by decide)).1
  · have h := (claim_C5_degenerate_height_range ⟨1, 1, [100, 100, 100, 255]⟩ 50
      (by decide)).2.2 0 0 (by decide) (by decide)
    simpa using h

/-- C6: displacement with strength 1 is the identity on every height buffer
(grayscale, opaque, byte-valued): the transform
`clamp((v - 128) * 1 + 128, 0, 255)` fixes every byte. -/
theorem claim_C6_displacement_strength_one_id (heightData : ImageData)
    (hg : isGrayQuads heightData.data = true) :
    generateDisplacement heightData 1 = heightData := by
  obtain ⟨w, h, d⟩ := heightData
  simp only [generateDisplacement, ImageData.mk.injEq, true_and]
  apply mapQuads_gray_id _ _ _ hg
  intro r hr
  have h1 : ((r : ℚ) - 128) * 1 + 128 = (r : ℚ) := by ring
  rw [h1]
  have h2 : min (255 : ℚ) (r : ℚ) = (r : ℚ) :=
    min_eq_right (by exact_mod_cast hr)
  rw [h2]
  have h3 : max (0 : ℚ) (r : ℚ) = (r : ℚ) := max_eq_right (Nat.cast_nonneg r)
  rw [h3, u8q_natCast r hr]

/-- C6 witness: a concrete 1×1 gray buffer is fixed by displacement at
strength 1. -/
theorem claim_C6_displacement_strength_one_id_witness :
    isGrayQuads (ImageData.data ⟨1, 1, [7, 7, 7, 255]⟩) = true ∧
    generateDisplacement ⟨1, 1, [7, 7, 7, 255]⟩ 1 = ⟨1, 1, [7, 7, 7, 255]⟩ :=
  ⟨by decide, claim_C6_displacement_strength_one_id _ (by decide)⟩

/-- C7: every pixel of the roughness map is
`ToUint8Clamp(clamp((255 - height) + offset * 1.5, 0, 255))`, and with
offset 0 it is exactly `255 - height`. -/
theorem claim_C7_roughness_inverts_height (heightData : ImageData)
    (offset : ℚ) (p k : ℕ) (hp : 4 * p + 3 < heightData.data.length)
    (hk : k < 3) :
    (generateRoughness heightData offset).data.getD (4 * p + k) 0 =
      u8q (max 0 (min 255
        ((255 - (heightData.data.getD (4 * p) 0 : ℚ)) + offset * (3/2)))) ∧
    (offset = 0 → heightData.data.getD (4 * p) 0 ≤ 255 →
      (generateRoughness heightData offset).data.getD (4 * p + k) 0 =
        255 - heightData.data.getD (4 * p) 0) := by
  have hmain : (generateRoughness heightData offset).data.getD (4 * p + k) 0 =
      u8q (max 0 (min 255
        ((255 - (heightData.data.getD (4 * p) 0 : ℚ)) + offset * (3/2)))) := by
    simp only [generateRoughness]
    rw [mapQuads_getD _ (by intro r g b a; rfl) p _ hp k (by omega)]
    interval_cases k <;> rfl
  refine ⟨hmain, ?_⟩
  intro h0 hr
  subst h0
  rw [hmain]
  set r : ℕ := heightData.data.getD (4 * p) 0
  have h1 : (255 - (r : ℚ)) + 0 * (3/2) = ((255 - r : ℕ) : ℚ) := by
    push_cast [hr]; ring
  rw [h1]
  have h2 : min (255 : ℚ) ((255 - r : ℕ) : ℚ) = ((255 - r : ℕ) : ℚ) :=
    min_eq_right (by exact_mod_cast Nat.sub_le 255 r)
  rw [h2]
  have h3 : max (0 : ℚ) ((255 - r : ℕ) : ℚ) = ((255 - r : ℕ) : ℚ) :=
    max_eq_right (Nat.cast_nonneg _)
  rw [h3, u8q_natCast _ (by omega)]

/-- C7 witness: gray 100 with offset 0 gives roughness 155 = 255 - 100. -/
theorem claim_C7_roughness_inverts_height_witness :
    (generateRoughness ⟨1, 1, [100, 100, 100, 255]⟩ 0).data.getD 0 0 = 155 := by
  have h := (claim_C7_roughness_inverts_height ⟨1, 1, [100, 100, 100, 255]⟩ 0
    0 0 (by decide) (by decide)).2 rfl (by decide)
  simpa using h

/-- C8: the metallic map is spatially uniform: every channel of every pixel
is `floor(metallic * 255)` (alpha 255), for any metallic in `[0,1]`. -/
theorem claim_C8_metallic_uniform (w h : ℕ) (value : ℚ)
    (_hw : 0 < w) (_hh : 0 < h) (h0 : 0 ≤ value) (h1 : value ≤ 1)
    (p k : ℕ) (hp : p < w * h) (hk : k < 4) :
    (generateMetallic w h value).data.getD (4 * p + k) 0 =
      if k = 3 then 255 else (⌊value * 255⌋).toNat := by
  simp only [generateMetallic]
  have hlen : 4 * p + 3 < (List.replicate (w * h * 4) 0).length := by
    rw [List.length_replicate]; omega
  rw [mapQuads_getD _ (by intro r g b a; rfl) p _ hlen k hk]
  have hfl0 : (0 : ℤ) ≤ ⌊value * 255⌋ := Int.floor_nonneg.mpr (by positivity)
  have hfl255 : ⌊value * 255⌋ ≤ 255 := by
    have hb : value * 255 ≤ ((255 : ℤ) : ℚ) := by push_cast; nlinarith
    have hmono := Int.floor_le_floor hb
    rwa [Int.floor_intCast] at hmono
  rw [u8q_intCast _ hfl0 hfl255]
  interval_cases k <;> rfl

/-- C8 witness: metallic 1/2 on a 2×2 target gives the uniform value 127. -/
theorem claim_C8_metallic_uniform_witness :
    (generateMetallic 2 2 (1/2)).data.getD 0 0 = 127 := by
  have hfl : ⌊(1/2 : ℚ) * 255⌋ = (127 : ℤ) := by
    rw [Int.floor_eq_iff]; norm_num
  have h := claim_C8_metallic_uniform 2 2 (1/2) (by norm_num) (by norm_num)
    (by norm_num) (by norm_num) 0 0 (by norm_num) (by norm_num)
  rw [hfl] at h
  simpa using h

/-- Pointwise description of `List.set`: position `i` gets the new value
when in range, every other position is unchanged. -/
theorem getD_set (l : List ℕ) : ∀ i j v : ℕ,
    (l.set i v).getD j 0 = if i = j ∧ j < l.length then v else l.getD j 0 := by
  induction l with
  | nil => intro i j v; simp
  | cons a tl ih =>
    intro i j v
    cases i with
    | zero =>
      cases j with
      | zero => simp
      | succ j' =>
        show tl.getD j' 0 = _
        rw [if_neg (by omega)]
        rfl
    | succ i' =>
      cases j with
      | zero =>
        show a = _
        rw [if_neg (by omega)]
        rfl
      | succ j' =>
        show (tl.set i' v).getD j' 0 = _
        rw [ih i' j' v]
        exact if_congr (by simp only [List.length_cons]; omega) rfl rfl

/-- Reading channel `k` of the pixel written by the four chained channel
stores. -/
theorem getD_set_chain (d : List ℕ) (i v0 v1 v2 v3 : ℕ)
    (hlen : i + 3 < d.length) : ∀ k : ℕ, k < 4 →
    ((((d.set i v0).set (i+1) v1).set (i+2) v2).set (i+3) v3).getD (i + k) 0 =
      [v0, v1, v2, v3].getD k 0 := by
  intro k hk
  rw [getD_set, getD_set, getD_set, getD_set]
  simp only [List.length_set]
  interval_cases k
  · rw [if_neg (by omega), if_neg (by omega), if_neg (by omega),
      if_pos (by omega)]
    rfl
  · rw [if_neg (by omega), if_neg (by omega), if_pos (by omega)]
    rfl
  · rw [if_neg (by omega), if_pos (by omega)]
    rfl
  · rw [if_pos (by omega)]
    rfl

/-- The four chained channel stores leave every other position unchanged. -/
theorem getD_set_chain_ne (d : List ℕ) (i v0 v1 v2 v3 j : ℕ)
    (hj : ∀ k : ℕ, k < 4 → j ≠ i + k) :
    ((((d.set i v0).set (i+1) v1).set (i+2) v2).set (i+3) v3).getD j 0 =
      d.getD j 0 := by
  have h0 := hj 0 (by omega)
  have h1 := hj 1 (by omega)
  have h2 := hj 2 (by omega)
  have h3 := hj 3 (by omega)
  rw [getD_set, getD_set, getD_set, getD_set]
  simp only [List.length_set]
  rw [if_neg (by omega), if_neg (by omega), if_neg (by omega),
    if_neg (by omega)]

/-- An in-range pixel index is below the pixel count. -/
theorem pix_lt (w h x y : ℕ) (hx : x < w) (hy : y < h) :
    y * w + x < w * h := by
  calc y * w + x < y * w + w := by omega
    _ = (y + 1) * w := by ring
    _ ≤ h * w := Nat.mul_le_mul_right w hy
    _ = w * h := Nat.mul_comm h w

/-- Channel positions of an in-range pixel are inside the flat buffer. -/
theorem pidx_add_lt (w h x y : ℕ) (hx : x < w) (hy : y < h)
    (k : ℕ) (hk : k < 4) : pidx w x y + k < w * h * 4 := by
  have hp := pix_lt w h x y hx hy
  unfold pidx
  omega

/-- Distinct in-range pixels and channels occupy distinct flat positions. -/
theorem pidx_inj (w x y x' y' k k' : ℕ) (hx : x < w) (hx' : x' < w)
    (hk : k < 4) (hk' : k' < 4)
    (heq : pidx w x y + k = pidx w x' y' + k') :
    x = x' ∧ y = y' ∧ k = k' := by
  unfold pidx at heq
  have hsplit : y * w + x = y' * w + x' ∧ k = k' := by omega
  obtain ⟨hp, hkk⟩ := hsplit
  have hw : 0 < w := by omega
  have hx1 : (y * w + x) % w = x := by
    rw [Nat.add_comm, Nat.add_mul_mod_self_right]
    exact Nat.mod_eq_of_lt hx
  have hx2 : (y' * w + x') % w = x' := by
    rw [Nat.add_comm, Nat.add_mul_mod_self_right]
    exact Nat.mod_eq_of_lt hx'
  have hxx : x = x' := by rw [← hx1, ← hx2, hp]
  refine ⟨hxx, ?_, hkk⟩
  have hyw : y * w = y' * w := by omega
  exact Nat.eq_of_mul_eq_mul_right hw hyw

/-- `Covered` only depends on the pixel set up to pointwise equivalence on
in-range pixels. -/
theorem Covered_congr (w h R G B A : ℕ) (S T : ℕ → ℕ → Prop)
    (d0 d : List ℕ) (hST : ∀ x y : ℕ, x < w → y < h → (S x y ↔ T x y))
    (hC : Covered w h R G B A S d0 d) : Covered w h R G B A T d0 d := by
  obtain ⟨hlen, hpt⟩ := hC
  refine ⟨hlen, fun x y k hx hy hk => ?_⟩
  obtain ⟨h1, h2⟩ := hpt x y k hx hy hk
  exact ⟨fun hT => h1 ((hST x y hx hy).mpr hT),
    fun hnT => h2 (fun hS => hnT ((hST x y hx hy).mp hS))⟩

/-- One bounds-checked border write extends the covered pixel set by (at
most) the pixel it addresses. -/
theorem setP_covered (w h R G B A : ℕ) (S : ℕ → ℕ → Prop) (d0 d : List ℕ)
    (hsize : d0.length = w * h * 4) (xi yi : ℤ)
    (hC : Covered w h R G B A S d0 d) :
    Covered w h R G B A (fun x y => S x y ∨ PixAt w h xi yi x y) d0
      (setP w h R G B A d xi yi) := by
  obtain ⟨hlen, hpt⟩ := hC
  by_cases hoob : xi < 0 ∨ (w : ℤ) ≤ xi ∨ yi < 0 ∨ (h : ℤ) ≤ yi
  · unfold setP
    rw [if_pos hoob]
    refine ⟨hlen, fun x y k hx hy hk => ?_⟩
    have hnp : ¬ PixAt w h xi yi x y := by
      rintro ⟨p1, p2, p3, p4, p5, p6⟩
      omega
    constructor
    · rintro (hS | hp)
      · exact (hpt x y k hx hy hk).1 hS
      · exact absurd hp hnp
    · intro hns
      exact (hpt x y k hx hy hk).2 (fun hS => hns (Or.inl hS))
  · have hx0 : 0 ≤ xi := by omega
    have hxw : xi < (w : ℤ) := by omega
    have hy0 : 0 ≤ yi := by omega
    have hyh : yi < (h : ℤ) := by omega
    have hxn : xi.toNat < w := by omega
    have hyn : yi.toNat < h := by omega
    unfold setP
    rw [if_neg hoob]
    have hin : pidx w xi.toNat yi.toNat + 3 < d.length := by
      rw [hlen, hsize]
      exact pidx_add_lt w h _ _ hxn hyn 3 (by omega)
    refine ⟨by simp only [List.length_set]; exact hlen,
      fun x y k hx hy hk => ?_⟩
    by_cases hpix : x = xi.toNat ∧ y = yi.toNat
    · obtain ⟨hxx, hyy⟩ := hpix
      constructor
      · intro _
        rw [hxx, hyy]
        exact getD_set_chain d _ _ _ _ _ hin k hk
      · intro hns
        exact absurd (Or.inr ⟨hx0, hxw, hy0, hyh, hxx, hyy⟩) hns
    · have hne : ∀ k' : ℕ, k' < 4 →
          pidx w x y + k ≠ pidx w xi.toNat yi.toNat + k' := by
        intro k' hk' heq
        obtain ⟨e1, e2, _⟩ := pidx_inj w x y xi.toNat yi.toNat k k'
          hx hxn hk hk' heq
        exact hpix ⟨e1, e2⟩
      have hgd : ((((d.set (pidx w xi.toNat yi.toNat) (min R 255)).set
          (pidx w xi.toNat yi.toNat + 1) (min G 255)).set
          (pidx w xi.toNat yi.toNat + 2) (min B 255)).set
          (pidx w xi.toNat yi.toNat + 3) (min A 255)).getD
          (pidx w x y + k) 0 = d.getD (pidx w x y + k) 0 :=
        getD_set_chain_ne d _ _ _ _ _ _ hne
      constructor
      · rintro (hS | hp)
        · rw [hgd]
          exact (hpt x y k hx hy hk).1 hS
        · obtain ⟨_, _, _, _, e5, e6⟩ := hp
          exact absurd ⟨e5, e6⟩ hpix
      · intro hns
        rw [hgd]
        exact (hpt x y k hx hy hk).2 (fun hS => hns (Or.inl hS))

/-- A loop of bounds-checked border writes covers the union of the pixels
its iterations address. -/
theorem forRange_setP_covered (w h R G B A : ℕ) (d0 : List ℕ)
    (hsize : d0.length = w * h * 4) (fc : ℕ → ℤ × ℤ) :
    ∀ (n : ℕ) (S : ℕ → ℕ → Prop) (d : List ℕ),
    Covered w h R G B A S d0 d →
    Covered w h R G B A
      (fun x y => S x y ∨ ∃ i, i < n ∧ PixAt w h (fc i).1 (fc i).2 x y) d0
      (forRange n (fun i d => setP w h R G B A d (fc i).1 (fc i).2) d) := by
  intro n
  induction n with
  | zero =>
    intro S d hC
    refine Covered_congr w h R G B A S _ d0 _ (fun x y _ _ => ?_) hC
    constructor
    · exact fun hS => Or.inl hS
    · rintro (hS | ⟨i, hi, _⟩)
      · exact hS
      · omega
  | succ m ih =>
    intro S d hC
    show Covered w h R G B A _ d0
      (setP w h R G B A
        (forRange m (fun i d => setP w h R G B A d (fc i).1 (fc i).2) d)
        (fc m).1 (fc m).2)
    have hstep := setP_covered w h R G B A _ d0 _ hsize (fc m).1 (fc m).2
      (ih S d hC)
    refine Covered_congr w h R G B A _ _ d0 _ (fun x y _ _ => ?_) hstep
    constructor
    · rintro ((hS | ⟨i, hi, hp⟩) | hp)
      · exact Or.inl hS
      · exact Or.inr ⟨i, by omega, hp⟩
      · exact Or.inr ⟨m, by omega, hp⟩
    · rintro (hS | ⟨i, hi, hp⟩)
      · exact Or.inl (Or.inl hS)
      · rcases Nat.lt_succ_iff_lt_or_eq.mp hi with him | him
        · exact Or.inl (Or.inr ⟨i, him, hp⟩)
        · subst him
          exact Or.inr hp

/-- A nested (row × column) loop of border writes covers the union of the
pixels addressed by all its iterations. -/
theorem pass_covered (w h R G B A : ℕ) (d0 : List ℕ)
    (hsize : d0.length = w * h * 4) (fc : ℕ → ℕ → ℤ × ℤ) :
    ∀ (n m : ℕ) (S : ℕ → ℕ → Prop) (d : List ℕ),
    Covered w h R G B A S d0 d →
    Covered w h R G B A
      (fun x y => S x y ∨
        ∃ j, j < n ∧ ∃ i, i < m ∧ PixAt w h (fc i j).1 (fc i j).2 x y) d0
      (forRange n (fun j d => forRange m (fun i d =>
        setP w h R G B A d (fc i j).1 (fc i j).2) d) d) := by
  intro n
  induction n with
  | zero =>
    intro m S d hC
    refine Covered_congr w h R G B A S _ d0 _ (fun x y _ _ => ?_) hC
    constructor
    · exact fun hS => Or.inl hS
    · rintro (hS | ⟨j, hj, _⟩)
      · exact hS
      · omega
  | succ q ih =>
    intro m S d hC
    show Covered w h R G B A _ d0
      (forRange m (fun i d => setP w h R G B A d (fc i q).1 (fc i q).2)
        (forRange q (fun j d => forRange m (fun i d =>
          setP w h R G B A d (fc i j).1 (fc i j).2) d) d))
    have hstep := forRange_setP_covered w h R G B A d0 hsize
      (fun i => fc i q) m _ _ (ih m S d hC)
    refine Covered_congr w h R G B A _ _ d0 _ (fun x y _ _ => ?_) hstep
    constructor
    · rintro ((hS | ⟨j, hj, i, hi, hp⟩) | ⟨i, hi, hp⟩)
      · exact Or.inl hS
      · exact Or.inr ⟨j, by omega, i, hi, hp⟩
      · exact Or.inr ⟨q, by omega, i, hi, hp⟩
    · rintro (hS | ⟨j, hj, i, hi, hp⟩)
      · exact Or.inl (Or.inl hS)
      · rcases Nat.lt_succ_iff_lt_or_eq.mp hj with hjq | hjq
        · exact Or.inl (Or.inr ⟨j, hjq, i, hi, hp⟩)
        · subst hjq
          exact Or.inr ⟨i, hi, hp⟩

/-- Full characterization of `applyDataBorder`: dimensions and length are
preserved, band pixels hold the border constant, all other pixels are
untouched — for arbitrary thicknesses, including ones exceeding the
dimensions. -/
theorem applyDataBorder_spec (img : ImageData) (t r b l R G B A : ℕ)
    (hsize : img.data.length = img.width * img.height * 4) :
    (applyDataBorder img t r b l R G B A).width = img.width ∧
    (applyDataBorder img t r b l R G B A).height = img.height ∧
    (applyDataBorder img t r b l R G B A).data.length = img.data.length ∧
    ∀ x y k : ℕ, x < img.width → y < img.height → k < 4 →
      (applyDataBorder img t r b l R G B A).data.getD
          (pidx img.width x y + k) 0 =
        if InBand img.width img.height t r b l x y then cval R G B A k
        else img.data.getD (pidx img.width x y + k) 0 := by
  obtain ⟨w, h, dd⟩ := img
  simp only at hsize
  by_cases hz : t = 0 ∧ r = 0 ∧ b = 0 ∧ l = 0
  · simp only [applyDataBorder, if_pos hz]
    refine ⟨trivial, trivial, trivial, fun x y k hx hy hk => ?_⟩
    obtain ⟨h1, h2, h3, h4⟩ := hz
    subst h1 h2 h3 h4
    have hnb : ¬ InBand w h 0 0 0 0 x y := by
      rintro (hc | hc | hc | hc) <;> omega
    rw [if_neg hnb]
  · simp only [applyDataBorder, if_neg hz]
    have c0 : Covered w h R G B A (fun _ _ => False) dd dd :=
      ⟨rfl, fun x y k _ _ _ => ⟨False.elim, fun _ => rfl⟩⟩
    have c1 := pass_covered w h R G B A dd hsize
      (fun i j => ((i : ℤ), (j : ℤ))) t w _ dd c0
    have c2 := pass_covered w h R G B A dd hsize
      (fun i j => ((i : ℤ), (h : ℤ) - 1 - (j : ℤ))) b w _ _ c1
    have c3 := pass_covered w h R G B A dd hsize
      (fun i j => ((j : ℤ), (i : ℤ))) l h _ _ c2
    have c4 := pass_covered w h R G B A dd hsize
      (fun i j => ((w : ℤ) - 1 - (j : ℤ), (i : ℤ))) r h _ _ c3
    have c5 := Covered_congr w h R G B A _ (InBand w h t r b l) dd _
      ?hiff c4
    case hiff =>
      intro x y hx hy
      constructor
      · rintro ((((hF | hTop) | hBot) | hLeft) | hRight)
        · exact hF.elim
        · obtain ⟨j, hj, i, hi, p1, p2, p3, p4, p5, p6⟩ := hTop
          dsimp only at p1 p2 p3 p4 p5 p6
          exact Or.inl (by omega)
        · obtain ⟨j, hj, i, hi, p1, p2, p3, p4, p5, p6⟩ := hBot
          dsimp only at p1 p2 p3 p4 p5 p6
          exact Or.inr (Or.inl (by omega))
        · obtain ⟨j, hj, i, hi, p1, p2, p3, p4, p5, p6⟩ := hLeft
          dsimp only at p1 p2 p3 p4 p5 p6
          exact Or.inr (Or.inr (Or.inl (by omega)))
        · obtain ⟨j, hj, i, hi, p1, p2, p3, p4, p5, p6⟩ := hRight
          dsimp only at p1 p2 p3 p4 p5 p6
          exact Or.inr (Or.inr (Or.inr (by omega)))
      · rintro (hc | hc | hc | hc)
        · refine Or.inl (Or.inl (Or.inl (Or.inr
            ⟨y, hc, x, hx, ?_, ?_, ?_, ?_, ?_, ?_⟩))) <;> dsimp only <;> omega
        · refine Or.inl (Or.inl (Or.inr
            ⟨h - 1 - y, ?_, x, hx, ?_, ?_, ?_, ?_, ?_, ?_⟩)) <;>
            dsimp only <;> omega
        · refine Or.inl (Or.inr
            ⟨x, hc, y, hy, ?_, ?_, ?_, ?_, ?_, ?_⟩) <;> dsimp only <;> omega
        · refine Or.inr
            ⟨w - 1 - x, ?_, y, hy, ?_, ?_, ?_, ?_, ?_, ?_⟩ <;>
            dsimp only <;> omega
    obtain ⟨hlen, hpt⟩ := c5
    refine ⟨trivial, trivial, hlen, fun x y k hx hy hk => ?_⟩
    by_cases hband : InBand w h t r b l x y
    · rw [if_pos hband]
      exact (hpt x y k hx hy hk).1 hband
    · rw [if_neg hband]
      exact (hpt x y k hx hy hk).2 hband

/-- C10: every `setP` write of `applyDataBorder` is bounds-checked, so for
arbitrary thicknesses — including ones larger than the dimensions — the
buffer keeps its length (no out-of-buffer effect), pixels outside the four
border bands are unchanged, and only band pixels are overwritten. -/
theorem claim_C10_border_writes_bounds_checked (img : ImageData)
    (t r b l R G B A : ℕ)
    (hsize : img.data.length = img.width * img.height * 4) :
    (applyDataBorder img t r b l R G B A).data.length = img.data.length ∧
    ∀ x y k : ℕ, x < img.width → y < img.height → k < 4 →
      (¬ InBand img.width img.height t r b l x y →
        (applyDataBorder img t r b l R G B A).data.getD
            (pidx img.width x y + k) 0 =
          img.data.getD (pidx img.width x y + k) 0) ∧
      (InBand img.width img.height t r b l x y →
        (applyDataBorder img t r b l R G B A).data.getD
            (pidx img.width x y + k) 0 = cval R G B A k) := by
  obtain ⟨hw, hh, hlen, hpt⟩ := applyDataBorder_spec img t r b l R G B A hsize
  refine ⟨hlen, fun x y k hx hy hk => ⟨fun hnb => ?_, fun hb => ?_⟩⟩
  · rw [hpt x y k hx hy hk, if_neg hnb]
  · rw [hpt x y k hx hy hk, if_pos hb]

/-- C10 witness: a 2×2 buffer with top thickness 7 and right thickness 9,
both exceeding the dimensions — length is kept and the corner pixel is
written. -/
theorem claim_C10_border_writes_bounds_checked_witness :
    (applyDataBorder ⟨2, 2, List.replicate 16 0⟩ 7 9 0 0 255 255 255
      255).data.length = 16 ∧
    (applyDataBorder ⟨2, 2, List.replicate 16 0⟩ 7 9 0 0 255 255 255
      255).data.getD 0 0 = 255 := by
  have h := claim_C10_border_writes_bounds_checked
    ⟨2, 2, List.replicate 16 0⟩ 7 9 0 0 255 255 255 255 (by decide)
  constructor
  · have h1 := h.1
    simpa using h1
  · have h2 := (h.2 0 0 0 (by decide) (by decide) (by decide)).2
      (by decide)
    simpa [pidx, cval] using h2

/-- Length of a loop-concatenated buffer of fixed-size chunks. -/
theorem catRange_length (f : ℕ → List ℕ) (c : ℕ) : ∀ n : ℕ,
    (∀ i, i < n → (f i).length = c) → (catRange n f).length = n * c := by
  intro n
  induction n with
  | zero => intro _; simp [catRange]
  | succ k ih =>
    intro hf
    show (catRange k f ++ f k).length = (k + 1) * c
    rw [List.length_append, ih (fun i hi => hf i (by omega)),
      hf k (by omega), Nat.succ_mul]

/-- Reading inside chunk `i` of a loop-concatenated buffer of fixed-size
chunks. -/
theorem catRange_getD (f : ℕ → List ℕ) (c : ℕ) : ∀ n : ℕ,
    (∀ i, i < n → (f i).length = c) → ∀ i j : ℕ, i < n → j < c →
    (catRange n f).getD (i * c + j) 0 = (f i).getD j 0 := by
  intro n
  induction n with
  | zero => intro _ i j hi _; omega
  | succ k ih =>
    intro hf i j hi hj
    show (catRange k f ++ f k).getD (i * c + j) 0 = (f i).getD j 0
    rcases Nat.lt_succ_iff_lt_or_eq.mp hi with hik | hik
    · have hlt : i * c + j < (catRange k f).length := by
        rw [catRange_length f c k (fun i hi => hf i (by omega))]
        calc i * c + j < i * c + c := by omega
          _ = (i + 1) * c := by ring
          _ ≤ k * c := Nat.mul_le_mul_right c hik
      rw [getD_append_left _ _ _ hlt]
      exact ih (fun i hi => hf i (by omega)) i j hik hj
    · subst hik
      have hidx : i * c + j = (catRange i f).length + j := by
        rw [catRange_length f c i (fun i hi => hf i (by omega))]
      rw [hidx, getD_append_right]

/-- The flat-gradient X/Y encoding 127.5 rounds to 128 (tie to even). -/
theorem u8r_midpoint : u8r (0.5 * 255) = 128 := by
  have hv : (0.5 : ℝ) * 255 = 127.5 := by norm_num
  rw [hv]
  unfold u8r
  rw [if_neg (by norm_num), if_neg (by norm_num)]
  have hfl : ⌊(127.5 : ℝ)⌋ = 127 := by
    rw [Int.floor_eq_iff]
    norm_num
  simp only [hfl]
  rw [if_neg (by norm_num), if_neg (by norm_num), if_neg (by decide)]
  rfl

/-- The flat-gradient Z encoding saturates at 255. -/
theorem u8r_top : u8r (1 * 255) = 255 := by
  unfold u8r
  rw [if_neg (by norm_num), if_pos (by norm_num)]

/-- On a flat height field every `normalQuad` is the canonical up normal
`(128,128,255)` with alpha 255, under either convention. -/
theorem normalQuad_flat (src : List ℕ) (w h c : ℕ) (s : ℚ) (isDX : Bool)
    (x y : ℕ) (hx : x < w) (hy : y < h)
    (hflat : ∀ x' y' : ℕ, x' < w → y' < h → src.getD (pidx w x' y') 0 = c) :
    normalQuad src w h s isDX x y = [128, 128, 255, 255] := by
  have hx1 : x - 1 < w := by omega
  have hx2 : min (w - 1) (x + 1) < w := by omega
  have hy1 : y - 1 < h := by omega
  have hy2 : min (h - 1) (y + 1) < h := by omega
  simp only [normalQuad]
  rw [hflat _ _ hx2 hy1, hflat _ _ hx1 hy1, hflat _ _ hx1 hy,
    hflat _ _ hx2 hy, hflat _ _ hx1 hy2, hflat _ _ hx2 hy2,
    hflat _ _ hx hy1, hflat _ _ hx hy2]
  have hzero : ((c : ℤ) + 2 * (c : ℤ) + (c : ℤ)) -
      ((c : ℤ) + 2 * (c : ℤ) + (c : ℤ)) = 0 := by ring
  rw [hzero]
  have hdZ : (0 : ℝ) < 255 / max 0.1 ((s : ℚ) : ℝ) := by
    apply div_pos (by norm_num)
    calc (0 : ℝ) < 0.1 := by norm_num
      _ ≤ max 0.1 ((s : ℚ) : ℝ) := le_max_left _ _
  set dZ : ℝ := 255 / max 0.1 ((s : ℚ) : ℝ) with hdZdef
  have hsq : ((0 : ℤ) : ℝ) * ((0 : ℤ) : ℝ) + ((0 : ℤ) : ℝ) * ((0 : ℤ) : ℝ) +
      dZ * dZ = dZ * dZ := by push_cast; ring
  rw [hsq, Real.sqrt_mul_self hdZ.le]
  have hnx : (((0 : ℤ) : ℝ) / dZ) * 0.5 + 0.5 = 0.5 := by
    push_cast
    rw [zero_div]
    ring
  have hnz : (dZ / dZ) * 0.5 + 0.5 = 1 := by
    rw [div_self hdZ.ne']
    ring
  rw [hnx, hnz]
  have hny : (if isDX then (0.5 : ℝ) else 1 - 0.5) = 0.5 := by
    cases isDX <;> norm_num
  rw [hny, u8r_midpoint, u8r_top]

/-- C1: on a perfectly flat height field of any constant value, the normal
synthesizer emits `(R,G,B) = (128,128,255)` (alpha 255) at every pixel,
under both the DX and the GL convention. -/
theorem claim_C1_flat_field_canonical_normal (hd : ImageData) (w h c : ℕ)
    (s : ℚ) (isDX : Bool)
    (hflat : ∀ x y : ℕ, x < w → y < h → hd.data.getD (pidx w x y) 0 = c)
    (_hs : 1/2 ≤ s ∧ s ≤ 6) (x y k : ℕ) (hx : x < w) (hy : y < h)
    (hk : k < 4) :
    (generateNormal hd w h s isDX).data.getD (pidx w x y + k) 0 =
      [128, 128, 255, 255].getD k 0 := by
  simp only [generateNormal]
  have hrow : ∀ i, i < h → (catRange w (fun x =>
      normalQuad hd.data w h s isDX x i)).length = w * 4 :=
    fun i _ => catRange_length _ 4 w (fun _ _ => rfl)
  have hidx : pidx w x y + k = y * (w * 4) + (x * 4 + k) := by
    unfold pidx
    ring
  rw [hidx, catRange_getD _ (w * 4) h hrow y (x * 4 + k) hy (by omega),
    catRange_getD _ 4 w (by intro i hi; rfl) x k hx hk,
    normalQuad_flat hd.data w h c s isDX x y hx hy hflat]

/-- C1 witness: a 2×2 constant-9 height field, strength 3, both
conventions evaluated at pixel (1,0). -/
theorem claim_C1_flat_field_canonical_normal_witness :
    (generateNormal ⟨2, 2, List.replicate 16 9⟩ 2 2 3 true).data.getD
      (pidx 2 1 0 + 2) 0 = 255 ∧
    (generateNormal ⟨2, 2, List.replicate 16 9⟩ 2 2 3 false).data.getD
      (pidx 2 1 0 + 0) 0 = 128 := by
  have hflat : ∀ x y : ℕ, x < 2 → y < 2 →
      (ImageData.data ⟨2, 2, List.replicate 16 9⟩).getD (pidx 2 x y) 0 = 9 := by
    intro x y hx hy
    interval_cases x <;> interval_cases y <;> rfl
  constructor
  · have h := claim_C1_flat_field_canonical_normal ⟨2, 2, List.replicate 16 9⟩
      2 2 9 3 true hflat ⟨by norm_num, by norm_num⟩ 1 0 2
      (by decide) (by decide) (by decide)
    simpa using h
  · have h := claim_C1_flat_field_canonical_normal ⟨2, 2, List.replicate 16 9⟩
      2 2 9 3 false hflat ⟨by norm_num, by norm_num⟩ 1 0 0
      (by decide) (by decide) (by decide)
    simpa using h

/-- A bounds-checked pixel write never changes the buffer length. -/
theorem setP_length (w h R G B A : ℕ) (d : List ℕ) (x y : ℤ) :
    (setP w h R G B A d x y).length = d.length := by
  unfold setP
  split
  · rfl
  · simp [List.length_set]

/-- A loop of length-preserving steps preserves the length. -/
theorem forRange_length (f : ℕ → List ℕ → List ℕ)
    (hf : ∀ i d, (f i d).length = d.length) :
    ∀ (n : ℕ) (d : List ℕ), (forRange n f d).length = d.length := by
  intro n
  induction n with
  | zero => intro d; rfl
  | succ k ih =>
    intro d
    show (f k (forRange k f d)).length = d.length
    rw [hf, ih]

/-- `applyDataBorder` never changes the buffer length, whatever the
thicknesses. -/
theorem applyDataBorder_data_length (img : ImageData) (t r b l R G B A : ℕ) :
    (applyDataBorder img t r b l R G B A).data.length = img.data.length := by
  simp only [applyDataBorder]
  split
  · rfl
  · show (forRange r _ (forRange l _ (forRange b _ (forRange t _
      img.data)))).length = img.data.length
    rw [forRange_length _ (by
        intro i d
        exact forRange_length _ (by
          intro j d'
          exact setP_length _ _ _ _ _ _ _ _ _) _ _),
      forRange_length _ (by
        intro i d
        exact forRange_length _ (by
          intro j d'
          exact setP_length _ _ _ _ _ _ _ _ _) _ _),
      forRange_length _ (by
        intro i d
        exact forRange_length _ (by
          intro j d'
          exact setP_length _ _ _ _ _ _ _ _ _) _ _),
      forRange_length _ (by
        intro i d
        exact forRange_length _ (by
          intro j d'
          exact setP_length _ _ _ _ _ _ _ _ _) _ _)]

/-- `applyDataBorder` keeps the width field. -/
theorem applyDataBorder_width (img : ImageData) (t r b l R G B A : ℕ) :
    (applyDataBorder img t r b l R G B A).width = img.width := by
  simp only [applyDataBorder]
  split <;> rfl

/-- `applyDataBorder` keeps the height field. -/
theorem applyDataBorder_height (img : ImageData) (t r b l R G B A : ℕ) :
    (applyDataBorder img t r b l R G B A).height = img.height := by
  simp only [applyDataBorder]
  split <;> rfl

/-- After `applyDataBorder`, every pixel of the band holds the border
constant. -/
theorem border_band_value (img : ImageData) (t r b l R G B A : ℕ)
    (hsize : img.data.length = img.width * img.height * 4)
    (x y k : ℕ) (hx : x < img.width) (hy : y < img.height) (hk : k < 4)
    (hband : InBand img.width img.height t r b l x y) :
    (applyDataBorder img t r b l R G B A).data.getD
      (pidx img.width x y + k) 0 = cval R G B A k := by
  obtain ⟨_, _, _, hpt⟩ := applyDataBorder_spec img t r b l R G B A hsize
  rw [hpt x y k hx hy hk, if_pos hband]

/-- C9: every entry of the returned `TextureSet` comes from the identical
serialization routine: the same lossy `image/jpeg` encoding at quality
0.95 for all seven maps — the data-bearing maps are not encoded
losslessly. -/
theorem claim_C9_uniform_lossy_jpeg_encoding (a : ImageData)
    (p : PBRParams) :
    (generateTextures a p true true).map (fun ts =>
      [ts.albedo.mime, ts.normal.mime, ts.roughness.mime, ts.metallic.mime,
       ts.height.mime, ts.displacement.mime, ts.ao.mime]) =
      Except.ok (List.replicate 7 "image/jpeg") ∧
    (generateTextures a p true true).map (fun ts =>
      [ts.albedo.quality, ts.normal.quality, ts.roughness.quality,
       ts.metallic.quality, ts.height.quality, ts.displacement.quality,
       ts.ao.quality]) = Except.ok (List.replicate 7 (95/100 : ℚ)) :=
  ⟨rfl, rfl⟩

/-- C3 counterexample: `heightMin = 80 ≥ 20 = heightMax` — an input the
claim says must fail with `InvalidParameters` — is accepted: the call
returns a `TextureSet`, no validation runs. -/
theorem claim_C3_counterexample_invalid_accepted :
    exceptIsOk (generateTextures
      ⟨2048, 1080, List.replicate (2048 * 1080 * 4) 0⟩
      ⟨Resolution.WIDE_2K, 1, NormalMode.DX, 1, 80, 20, 0, 0, 1,
        ⟨0, 0, 0, 0, false, "#000000"⟩⟩ true true) = true := rfl

/-- C3 amended: `generateTextures` performs no parameter validation at
all: for every parameter block — including `heightMin ≥ heightMax`,
out-of-range values and oversized border thicknesses — synthesis runs to
completion and returns a `TextureSet` whenever the initial canvas context
exists. -/
theorem claim_C3_amended_no_validation (a : ImageData) (p : PBRParams)
    (encCtxOk : Bool) :
    exceptIsOk (generateTextures a p true encCtxOk) = true := rfl

/-- C4 counterexample: when the encoding canvas context is unavailable the
synthesis call does not fail as a whole — it succeeds and returns a full
`TextureSet` whose every entry is the silently-defaulted empty string. -/
theorem claim_C4_counterexample_silent_default :
    generateTextures ⟨2048, 2048, List.replicate (2048 * 2048 * 4) 0⟩
      ⟨Resolution.SQUARE_2K, 3, NormalMode.DX, 1, 20, 80, 0, 0, 1,
        ⟨0, 0, 0, 0, false, "#000000"⟩⟩ true false =
      Except.ok ⟨EncodedURL.empty, EncodedURL.empty, EncodedURL.empty,
        EncodedURL.empty, EncodedURL.empty, EncodedURL.empty,
        EncodedURL.empty⟩ := rfl

/-- C2: after one synthesis call, with any border thicknesses within
`[0, min(width,height)/2]` and any valid interior parameters, every pixel
in the border band of the roughness map is 255, of the metallic map 0, of
the height map 0 and of the displacement map 0 (on the RGB channels). -/
theorem claim_C2_border_invariant (albedoData : ImageData) (p : PBRParams)
    (hw : albedoData.width = resWidth p.resolution)
    (hh : albedoData.height = resHeight p.resolution)
    (hlen : albedoData.data.length =
      albedoData.width * albedoData.height * 4)
    (_hvalid : ValidInterior p)
    (_ht : p.borders.top ≤
      min (resWidth p.resolution) (resHeight p.resolution) / 2)
    (_hr : p.borders.right ≤
      min (resWidth p.resolution) (resHeight p.resolution) / 2)
    (_hb : p.borders.bottom ≤
      min (resWidth p.resolution) (resHeight p.resolution) / 2)
    (_hl : p.borders.left ≤
      min (resWidth p.resolution) (resHeight p.resolution) / 2)
    (x y k : ℕ) (hx : x < resWidth p.resolution)
    (hy : y < resHeight p.resolution) (hk : k < 3)
    (hband : InBand (resWidth p.resolution) (resHeight p.resolution)
      p.borders.top p.borders.right p.borders.bottom p.borders.left x y) :
    (pipelineMaps albedoData p).roughness.data.getD
      (pidx (resWidth p.resolution) x y + k) 0 = 255 ∧
    (pipelineMaps albedoData p).metallic.data.getD
      (pidx (resWidth p.resolution) x y + k) 0 = 0 ∧
    (pipelineMaps albedoData p).height.data.getD
      (pidx (resWidth p.resolution) x y + k) 0 = 0 ∧
    (pipelineMaps albedoData p).displacement.data.getD
      (pidx (resWidth p.resolution) x y + k) 0 = 0 := by
  set W := resWidth p.resolution with hW
  set H := resHeight p.resolution with hH
  set bt := p.borders.top with hbt
  set bR := p.borders.right with hbR
  set bb := p.borders.bottom with hbb
  set bL := p.borders.left with hbL
  set g2 := applyDataBorder (toGrayscale albedoData) bt bR bb bL 0 0 0
    with hg2
  set hImg := applyDataBorder (generateHeight g2 p.heightMin p.heightMax)
    bt bR bb bL 0 0 0 with hhImg
  have hRq : (pipelineMaps albedoData p).roughness =
    applyDataBorder (generateRoughness hImg p.roughness)
      bt bR bb bL 255 255 255 := rfl
  have hMq : (pipelineMaps albedoData p).metallic =
    applyDataBorder (generateMetallic W H p.metallic) bt bR bb bL 0 0 0 := rfl
  have hHq : (pipelineMaps albedoData p).height = hImg := rfl
  have hDq : (pipelineMaps albedoData p).displacement =
    applyDataBorder (generateDisplacement hImg p.displacementStrength)
      bt bR bb bL 0 0 0 := rfl
  have hg2w : g2.width = W := by
    rw [hg2, applyDataBorder_width]
    exact hw
  have hg2h : g2.height = H := by
    rw [hg2, applyDataBorder_height]
    exact hh
  have hlen0 : albedoData.data.length = W * H * 4 := by
    rw [hlen, hw, hh]
  have hlg : (toGrayscale albedoData).data.length = W * H * 4 := by
    show (mapQuads _ albedoData.data).length = W * H * 4
    rw [mapQuads_length _ (by intro q1 q2 q3 q4; rfl), hlen0]
    omega
  have hlg2 : g2.data.length = W * H * 4 := by
    rw [hg2, applyDataBorder_data_length]
    exact hlg
  have hlh : (generateHeight g2 p.heightMin p.heightMax).data.length =
      W * H * 4 := by
    show (mapQuads _ g2.data).length = W * H * 4
    rw [mapQuads_length _ (by intro q1 q2 q3 q4; rfl), hlg2]
    omega
  have hhImgW : hImg.width = W := by
    rw [hhImg, applyDataBorder_width]
    exact hg2w
  have hhImgH : hImg.height = H := by
    rw [hhImg, applyDataBorder_height]
    exact hg2h
  have hlh2 : hImg.data.length = W * H * 4 := by
    rw [hhImg, applyDataBorder_data_length]
    exact hlh
  refine ⟨?_, ?_, ?_, ?_⟩
  · rw [hRq]
    have himgw : (generateRoughness hImg p.roughness).width = W := hhImgW
    have himgh : (generateRoughness hImg p.roughness).height = H := hhImgH
    have hsize : (generateRoughness hImg p.roughness).data.length =
        (generateRoughness hImg p.roughness).width *
          (generateRoughness hImg p.roughness).height * 4 := by
      rw [himgw, himgh]
      show (mapQuads _ hImg.data).length = W * H * 4
      rw [mapQuads_length _ (by intro q1 q2 q3 q4; rfl), hlh2]
      omega
    have hval := border_band_value (generateRoughness hImg p.roughness)
      bt bR bb bL 255 255 255 255 hsize x y k
      (by rw [himgw]; exact hx) (by rw [himgh]; exact hy) (by omega)
      (by rw [himgw, himgh]; exact hband)
    rw [himgw] at hval
    refine hval.trans ?_
    interval_cases k <;> rfl
  · rw [hMq]
    have hsize : (generateMetallic W H p.metallic).data.length =
        (generateMetallic W H p.metallic).width *
          (generateMetallic W H p.metallic).height * 4 := by
      show (mapQuads _ (List.replicate (W * H * 4) 0)).length = W * H * 4
      rw [mapQuads_length _ (by intro q1 q2 q3 q4; rfl),
        List.length_replicate]
      omega
    have hval := border_band_value (generateMetallic W H p.metallic)
      bt bR bb bL 0 0 0 255 hsize x y k hx hy (by omega) hband
    refine hval.trans ?_
    interval_cases k <;> rfl
  · rw [hHq, hhImg]
    have himgw : (generateHeight g2 p.heightMin p.heightMax).width = W :=
      hg2w
    have himgh : (generateHeight g2 p.heightMin p.heightMax).height = H :=
      hg2h
    have hsize : (generateHeight g2 p.heightMin p.heightMax).data.length =
        (generateHeight g2 p.heightMin p.heightMax).width *
          (generateHeight g2 p.heightMin p.heightMax).height * 4 := by
      rw [himgw, himgh]
      exact hlh
    have hval := border_band_value
      (generateHeight g2 p.heightMin p.heightMax) bt bR bb bL 0 0 0 255
      hsize x y k (by rw [himgw]; exact hx) (by rw [himgh]; exact hy)
      (by omega) (by rw [himgw, himgh]; exact hband)
    rw [himgw] at hval
    refine hval.trans ?_
    interval_cases k <;> rfl
  · rw [hDq]
    have himgw : (generateDisplacement hImg p.displacementStrength).width =
        W := hhImgW
    have himgh : (generateDisplacement hImg p.displacementStrength).height =
        H := hhImgH
    have hsize :
        (generateDisplacement hImg p.displacementStrength).data.length =
        (generateDisplacement hImg p.displacementStrength).width *
          (generateDisplacement hImg p.displacementStrength).height * 4 := by
      rw [himgw, himgh]
      show (mapQuads _ hImg.data).length = W * H * 4
      rw [mapQuads_length _ (by intro q1 q2 q3 q4; rfl), hlh2]
      omega
    have hval := border_band_value
      (generateDisplacement hImg p.displacementStrength)
      bt bR bb bL 0 0 0 255 hsize x y k
      (by rw [himgw]; exact hx) (by rw [himgh]; exact hy) (by omega)
      (by rw [himgw, himgh]; exact hband)
    rw [himgw] at hval
    refine hval.trans ?_
    interval_cases k <;> rfl

/-- C2 witness: a 2048×2048 black albedo, default-like valid parameters,
all four thicknesses 2, at band pixel (0,0). -/
theorem claim_C2_border_invariant_witness :
    (pipelineMaps ⟨2048, 2048, List.replicate (2048 * 2048 * 4) 0⟩
      ⟨Resolution.SQUARE_2K, 1, NormalMode.DX, 1, 20, 80, 0, 1/2, 1,
        ⟨2, 2, 2, 2, false, "#000000"⟩⟩).roughness.data.getD 0 0 = 255 ∧
    (pipelineMaps ⟨2048, 2048, List.replicate (2048 * 2048 * 4) 0⟩
      ⟨Resolution.SQUARE_2K, 1, NormalMode.DX, 1, 20, 80, 0, 1/2, 1,
        ⟨2, 2, 2, 2, false, "#000000"⟩⟩).metallic.data.getD 0 0 = 0 ∧
    (pipelineMaps ⟨2048, 2048, List.replicate (2048 * 2048 * 4) 0⟩
      ⟨Resolution.SQUARE_2K, 1, NormalMode.DX, 1, 20, 80, 0, 1/2, 1,
        ⟨2, 2, 2, 2, false, "#000000"⟩⟩).height.data.getD 0 0 = 0 ∧
    (pipelineMaps ⟨2048, 2048, List.replicate (2048 * 2048 * 4) 0⟩
      ⟨Resolution.SQUARE_2K, 1, NormalMode.DX, 1, 20, 80, 0, 1/2, 1,
        ⟨2, 2, 2, 2, false, "#000000"⟩⟩).displacement.data.getD 0 0 = 0 := by
  have h := claim_C2_border_invariant
    ⟨2048, 2048, List.replicate (2048 * 2048 * 4) 0⟩
    ⟨Resolution.SQUARE_2K, 1, NormalMode.DX, 1, 20, 80, 0, 1/2, 1,
      ⟨2, 2, 2, 2, false, "#000000"⟩⟩
    rfl rfl (List.length_replicate _ _)
    (by constructor <;> norm_num [ValidInterior])
    (by decide) (by decide) (by decide) (by decide)
    0 0 0 (by decide) (by decide) (by decide) (by decide)
  exact ⟨h.1, h.2.1, h.2.2.1, h.2.2.2⟩

/-- C4 amended: an `EncodingFailure` is silently downgraded, not surfaced:
whenever the encoding context is unavailable, every map is encoded as the
empty string and a complete `TextureSet` of empty entries is still
returned; only the initial albedo canvas context failure is thrown. -/
theorem claim_C4_amended_encoding_failure_downgraded (a : ImageData)
    (p : PBRParams) :
    generateTextures a p true false =
      Except.ok ⟨EncodedURL.empty, EncodedURL.empty, EncodedURL.empty,
        EncodedURL.empty, EncodedURL.empty, EncodedURL.empty,
        EncodedURL.empty⟩ ∧
    generateTextures a p false true =
      Except.error "Failed to create canvas context" :=
  ⟨rfl, rfl⟩

end TexGen
